import Mathlib

/-!
Verification of the monch parser-combinator library (src/index.ts, with the
JSON grammar of src/deno_test.ts), shallowly embedded in Lean.

Modelling conventions:
* The source string is a `List Char` and the cursor index a `Nat` (the
  TypeScript `index` is a JS number; every index the library itself produces
  is a non-negative integer, so `Nat` is faithful for all library-made
  cursors; `char`'s `input.index >= 0` bound is then automatic).
* The TS `ParseResult` is the union of a success object, an error object and
  `undefined`; it is embedded as a three-constructor inductive, with
  `undefined` (= "no match") as the constructor `noMatch`.
* `while (true)` loops (`manySep0`, `take0`) are embedded as fuel-indexed
  step functions returning `Option` (`none` = the loop has not exited within
  the given number of iterations); the packaged parsers run them with fuel
  `code.length - index + 1`, which suffices whenever every iteration strictly
  advances a cursor bounded by the code length.
* TS union value types (`TParsed | undefined` in `optional`) are embedded as
  `Option`, a `Matched` value being wrapped in `some`.
-/

namespace Monch

/-- The input to a given parse function: entire code string plus current index. -/
structure ParseInput where
  code : List Char
  index : Nat
deriving DecidableEq, Repr

/-- Source location in the original code string. -/
structure ParseSource where
  code : List Char
  start : Nat
  stop : Nat
deriving DecidableEq, Repr

/-- The outcome of a parse attempt: TS `{kind:'success',...} | {kind:'error',...} | undefined`. -/
inductive ParseResult (TParsed : Type) (TError : Type) where
  | success (input : ParseInput) (src : ParseSource) (parsed : TParsed)
  | error (input : ParseInput) (err : TError)
  | noMatch
deriving DecidableEq, Repr

/-- A function that takes an input and attempts to parse from the front of it. -/
def Parser (TParsed : Type) (TError : Type) : Type :=
  ParseInput → ParseResult TParsed TError

/-- Create an initial `ParseInput` from just a code string. -/
def input (code : List Char) : ParseInput := ⟨code, 0⟩

/-- Don't progress input, return a successful parse of `undefined` (embedded as `none`). -/
def nothing {T E : Type} : Parser (Option T) E := fun inp =>
  .success inp ⟨inp.code, inp.index, inp.index⟩ none

/-- Parse an exact string: succeeds iff the code at the current index starts with `str`,
advancing by `str.length`. -/
def exact {E : Type} (str : List Char) : Parser (List Char) E := fun inp =>
  if str.isPrefixOf (inp.code.drop inp.index) then
    .success ⟨inp.code, inp.index + str.length⟩ ⟨inp.code, inp.index, inp.index + str.length⟩ str
  else
    .noMatch

/-- If parsed value doesn't match `pred`, convert the result to a none-result. -/
def filter {T E : Type} (parser : Parser T E) (pred : T → Bool) : Parser T E := fun inp =>
  match parser inp with
  | .success i s v => if pred v then .success i s v else .noMatch
  | .error i e => .error i e
  | .noMatch => .noMatch

/-- If parsed value, transform it using `fn` (which also receives the span). -/
def map {T E M : Type} (parser : Parser T E) (fn : T → ParseSource → M) : Parser M E := fun inp =>
  match parser inp with
  | .success i s v => .success i s (fn v s)
  | .error i e => .error i e
  | .noMatch => .noMatch

/-- Require that the parser finds something, erroring (with the payload built by
the `err` callback from the original input) if nothing is parsed. -/
def required {T E : Type} (parser : Parser T E) (err : ParseInput → E) : Parser T E := fun inp =>
  match parser inp with
  | .noMatch => .error inp (err inp)
  | .success i s v => .success i s v
  | .error i e => .error i e

/-- Parse a single (any) character, if the input index is in bounds. -/
def char {E : Type} : Parser Char E := fun inp =>
  if h : inp.index < inp.code.length then
    .success ⟨inp.code, inp.index + 1⟩ ⟨inp.code, inp.index, inp.index + 1⟩
      (inp.code.get ⟨inp.index, h⟩)
  else
    .noMatch

/-- Models the JS regex `/[\s]/` on the characters the library can see (ASCII whitespace). -/
def whitespaceCharPred (ch : Char) : Bool :=
  ch == ' ' || ch == '\t' || ch == '\n' || ch == '\r' || ch == '\x0b' || ch == '\x0c'

/-- Parse a single whitespace character. -/
def whitespaceChar {E : Type} : Parser Char E := filter char whitespaceCharPred

/-- Models the JS regex `/[0-9]/`. -/
def numericCharPred (ch : Char) : Bool := '0' ≤ ch && ch ≤ '9'

/-- Parse a single numeric character. -/
def numericChar {E : Type} : Parser Char E := filter char numericCharPred

/-- If `parser` doesn't find anything, succeed anyway with an `undefined` (= `none`) value:
TS `parser(input) ?? nothing(input)`, with the union value type `TParsed | undefined`
embedded as `Option T` (a matched value is wrapped in `some`). -/
def optional {T E : Type} (parser : Parser T E) : Parser (Option T) E := fun inp =>
  match parser inp with
  | .success i s v => .success i s (some v)
  | .error i e => .error i e
  | .noMatch => nothing inp

/-- Try each parser in sequence and return the first successful or erroneous result
(falling off the end — including the empty list — yields `undefined`/noMatch). -/
def oneOf {T E : Type} (possibilities : List (Parser T E)) : Parser T E := fun inp =>
  match possibilities with
  | [] => .noMatch
  | p :: rest =>
    match p inp with
    | .noMatch => oneOf rest inp
    | .success i s v => .success i s v
    | .error i e => .error i e

/-- The loop body of TS `tuple`, with the accumulated `items` and the threaded
`next` cursor explicit; `start` is the input `tuple` itself received. -/
def tupleAux {T E : Type} (pieces : List (Parser T E)) (start : ParseInput)
    (next : ParseInput) (items : List T) : ParseResult (List T) E :=
  match pieces with
  | [] => .success next ⟨start.code, start.index, next.index⟩ items
  | p :: rest =>
    match p next with
    | .success i _ v => tupleAux rest start i (items ++ [v])
    | .error i e => .error i e
    | .noMatch => .noMatch

/-- Parse a sequence of things, one after the other (homogeneous-list embedding of
the variadic TS `tuple`). -/
def tuple {T E : Type} (pieces : List (Parser T E)) : Parser (List T) E := fun inp =>
  tupleAux pieces inp inp []

/-- Two-slot instance of the TS variadic `tuple` (heterogeneous slots embedded as a pair):
thread the cursor through both pieces, abort on the first non-success, and on success
report the span from the initial to the final cursor index. -/
def tuple2 {A B E : Type} (p : Parser A E) (q : Parser B E) : Parser (A × B) E := fun inp =>
  match p inp with
  | .success i1 _ a =>
    match q i1 with
    | .success i2 _ b => .success i2 ⟨inp.code, inp.index, i2.index⟩ (a, b)
    | .error i e => .error i e
    | .noMatch => .noMatch
  | .error i e => .error i e
  | .noMatch => .noMatch

/-- Three-slot instance of the TS variadic `tuple`, as nested `tuple2`
(the observable cursor threading, abort behavior and outer span coincide
with the unrolled loop). -/
def tuple3 {A B C E : Type} (p : Parser A E) (q : Parser B E) (r : Parser C E) :
    Parser (A × B × C) E :=
  tuple2 p (tuple2 q r)

/-- Five-slot instance of the TS variadic `tuple`, as nested `tuple2`. -/
def tuple5 {A B C D F E : Type} (p : Parser A E) (q : Parser B E) (r : Parser C E)
    (s : Parser D E) (t : Parser F E) : Parser (A × B × C × D × F) E :=
  tuple2 p (tuple2 q (tuple2 r (tuple2 s t)))

/-- One `while (true)` pass of TS `manySep0`, fuel-indexed: `none` means the loop has
not exited within `fuel` iterations. Each iteration first consumes the separator
(when one is configured and at least one item has been parsed; a separator `noMatch`
ends the loop, a separator error is returned), then attempts `item` (a `noMatch`
ends the loop, an error is returned, a success accumulates and continues). -/
def manySep0Go {T S E : Type} (item : Parser T E) (sep : Option (Parser S E))
    (start : ParseInput) : Nat → ParseInput → List T → Option (ParseResult (List T) E)
  | 0, _, _ => none
  | fuel + 1, next, items =>
    match items, sep with
    | _ :: _, some s =>
      match s next with
      | .noMatch => some (.success next ⟨start.code, start.index, next.index⟩ items)
      | .error i e => some (.error i e)
      | .success i1 _ _ =>
        match item i1 with
        | .noMatch => some (.success i1 ⟨start.code, start.index, i1.index⟩ items)
        | .error i e => some (.error i e)
        | .success i2 _ v => manySep0Go item sep start fuel i2 (items ++ [v])
    | _, _ =>
      match item next with
      | .noMatch => some (.success next ⟨start.code, start.index, next.index⟩ items)
      | .error i e => some (.error i e)
      | .success i2 _ v => manySep0Go item sep start fuel i2 (items ++ [v])

/-- Parse 0 or more instances of `item`, separated by `sep` (if provided); only the
items are returned. The TS loop is run with fuel `code.length - index + 1` (enough
for every terminating run whose sub-parsers strictly advance within bounds);
exhausted fuel — a run on which the TS loop never exits — is mapped to `noMatch`. -/
def manySep0 {T S E : Type} (item : Parser T E) (sep : Option (Parser S E)) :
    Parser (List T) E := fun inp =>
  (manySep0Go item sep inp (inp.code.length - inp.index + 1) inp []).getD .noMatch

/-- Parse 1 or more instances of `item`, separated by `sep` (if provided). -/
def manySep1 {T S E : Type} (item : Parser T E) (sep : Option (Parser S E)) :
    Parser (List T) E :=
  filter (manySep0 item sep) (fun parsed => decide (parsed.length > 0))

/-- Parse 0 or more instances of `item`. Succeeds even if nothing is found. -/
def many0 {T E : Type} (item : Parser T E) : Parser (List T) E :=
  manySep0 item (none : Option (Parser Unit E))

/-- Parse 1 or more instances of `item`. -/
def many1 {T E : Type} (item : Parser T E) : Parser (List T) E :=
  manySep1 item (none : Option (Parser Unit E))

/-- One `while (true)` pass of TS `take0`, fuel-indexed like `manySep0Go`. -/
def take0Go {E : Type} (charParser : Parser Char E) (start : ParseInput) :
    Nat → ParseInput → List Char → Option (ParseResult (List Char) E)
  | 0, _, _ => none
  | fuel + 1, next, res =>
    match charParser next with
    | .noMatch => some (.success next ⟨start.code, start.index, next.index⟩ res)
    | .error i e => some (.error i e)
    | .success i _ c => take0Go charParser start fuel i (res ++ [c])

/-- Parse 0 or more characters with the 1-character parser `charParser`, returned
concatenated (here: as a `List Char`); fuel handling as in `manySep0`. -/
def take0 {E : Type} (charParser : Parser Char E) : Parser (List Char) E := fun inp =>
  (take0Go charParser inp (inp.code.length - inp.index + 1) inp []).getD .noMatch

/-- Parse 1 or more characters with the 1-character parser `chP`. -/
def take1 {E : Type} (chP : Parser Char E) : Parser (List Char) E :=
  filter (take0 chP) (fun s => decide (s.length > 0))

/-- Any amount of whitespace (or none). -/
def whitespace {E : Type} : Parser Unit E :=
  map (take0 whitespaceChar) (fun _ _ => ())

/-! The JSON grammar of src/deno_test.ts, built on the combinators above. -/

/-- JSON values produced by the example grammar. The TS grammar converts the
numeral string with `Number(...)` and collects object entries with
`Object.fromEntries`; the embedding keeps the numeral string and the entry
list themselves. -/
inductive Json where
  | null
  | bool (b : Bool)
  | num (numeral : List Char)
  | str (s : List Char)
  | arr (elements : List Json)
  | obj (entries : List (List Char × Json))

/-- `null` literal. -/
def nil : Parser Json String :=
  map (exact "null".data) (fun _ _ => Json.null)

/-- `true` / `false` literals. -/
def boolean : Parser Json String :=
  map (oneOf [exact "true".data, exact "false".data])
    (fun s _ => Json.bool (s == "true".data))

/-- Numbers: one or more digits, optionally a decimal point that then requires
more digits; the value keeps the assembled numeral string. -/
def number : Parser Json String :=
  map
    (tuple2 (take1 numericChar)
      (optional (tuple2 (exact ".".data)
        (required (take1 numericChar) (fun _ => "Expected numbers after decimal point")))))
    (fun fb _ =>
      match fb.2 with
      | none => Json.num fb.1
      | some db => Json.num (fb.1 ++ [Char.ofNat 46] ++ db.2))

/-- Quoted string: open quote, any non-quote characters, required closing quote. -/
def string : Parser (List Char) String :=
  map
    (tuple3 (exact ['\x22'])
      (take0 (filter char (fun ch => ch != '\x22')))
      (required (exact ['\x22']) (fun _ => "Expected closing quote \x27\x22\x27")))
    (fun x _ => x.2.1)

/-- A comma with any whitespace around it. -/
def commaWithWhitespace : Parser (Unit × List Char × Unit) String :=
  tuple3 whitespace (exact ",".data) whitespace

/-- Array literal, parameterized by the (recursive) JSON-value parser. -/
def array (jv : Parser Json String) : Parser Json String :=
  map
    (tuple5 (exact "[".data) whitespace
      (manySep0 jv (some commaWithWhitespace))
      whitespace
      (required (exact "]".data) (fun _ => "Expected closing bracket \x27]\x27")))
    (fun x _ => Json.arr x.2.2.1)

/-- One `"key": value` entry of an object literal. -/
def objectEntry (jv : Parser Json String) : Parser (List Char × Json) String :=
  map
    (tuple5 string whitespace
      (required (exact ":".data) (fun _ => "Expected \x27:\x27 after object key"))
      whitespace
      (required jv (fun _ => "Expected value after \x27:\x27")))
    (fun x _ => (x.1, x.2.2.2.2))

/-- Object literal, parameterized by the (recursive) JSON-value parser. -/
def object (jv : Parser Json String) : Parser Json String :=
  map
    (tuple5 (exact ['\x7b']) whitespace
      (manySep0 (objectEntry jv) (some commaWithWhitespace))
      whitespace
      (required (exact ['\x7d']) (fun _ => "Expected closing curly brace \x27\x7d\x27")))
    (fun x _ => Json.obj x.2.2.1)

/-- The recursive JSON-value parser; the TS version is recursive by name, which
the embedding renders with a structural depth index (`0` never matches; the
theorems use a depth comfortably above the nesting of the inputs involved). -/
def jsonValue : Nat → Parser Json String
  | 0 => fun _ => .noMatch
  | fuel + 1 =>
    oneOf [nil, boolean, number, map string (fun s _ => Json.str s),
      array (jsonValue fuel), object (jsonValue fuel)]

/-- A JSON document: a JSON value with any whitespace around it. -/
def jsonDocument (fuel : Nat) : Parser Json String :=
  map (tuple3 whitespace (jsonValue fuel) whitespace) (fun x _ => x.2.1)

/-! Specification-side definitions used to state the claims. -/

/-- Big-step relation for sequencing: the parsers in the list each match in
order, threading the cursor from `c` to `c2` and producing the values `vs`. -/
inductive RunsAll {T E : Type} : List (Parser T E) → ParseInput → ParseInput → List T → Prop
  | nil (c : ParseInput) : RunsAll [] c c []
  | cons {p : Parser T E} {ps : List (Parser T E)} {c i c2 : ParseInput}
      {s : ParseSource} {v : T} {vs : List T} :
      p c = .success i s v → RunsAll ps i c2 vs → RunsAll (p :: ps) c c2 (v :: vs)

/-- Every `Matched` result of `p` strictly advances the cursor offset. -/
def StrictlyAdvances {T E : Type} (p : Parser T E) : Prop :=
  ∀ (c i : ParseInput) (s : ParseSource) (v : T), p c = .success i s v → c.index < i.index

/-- Every `Matched` result of `p` strictly advances the cursor offset, keeps the
code, and stays within the code length. -/
def AdvancesInBounds {T E : Type} (p : Parser T E) : Prop :=
  ∀ (c i : ParseInput) (s : ParseSource) (v : T), p c = .success i s v →
    i.code = c.code ∧ c.index < i.index ∧ i.index ≤ c.code.length

/-- The TS `while (true)` loop of `take0 charParser` run from `c` exits after
finitely many iterations. -/
def Take0Terminates {E : Type} (charParser : Parser Char E) (c : ParseInput) : Prop :=
  ∃ fuel r, take0Go charParser c fuel c [] = some r

/-- The TS `while (true)` loop of `manySep0 item sep` run from `c` exits after
finitely many iterations. -/
def ManySep0Terminates {T S E : Type} (item : Parser T E) (sep : Option (Parser S E))
    (c : ParseInput) : Prop :=
  ∃ fuel r, manySep0Go item sep c fuel c [] = some r

/-- A 1-character parser that always matches and strictly advances the cursor
(also past the end of the code). -/
def alwaysAdvance {E : Type} : Parser Char E := fun inp =>
  .success ⟨inp.code, inp.index + 1⟩ ⟨inp.code, inp.index, inp.index + 1⟩ (Char.ofNat 120)

/-! Helper lemmas. -/

lemma oneOf_cons_noMatch {T E : Type} {p : Parser T E} {ps : List (Parser T E)}
    {c : ParseInput} (h : p c = .noMatch) : oneOf (p :: ps) c = oneOf ps c := by
  simp [oneOf, h]

lemma oneOf_skip {T E : Type} {pre : List (Parser T E)} {c : ParseInput}
    (h : ∀ q ∈ pre, q c = .noMatch) (ps : List (Parser T E)) :
    oneOf (pre ++ ps) c = oneOf ps c := by
  induction pre with
  | nil => rfl
  | cons p rest ih =>
    rw [List.cons_append, oneOf_cons_noMatch (h p (by simp))]
    exact ih fun q hq => h q (by simp [hq])

lemma oneOf_cons_decisive {T E : Type} {p : Parser T E} {c : ParseInput}
    {r : ParseResult T E} (ps : List (Parser T E)) (h : p c = r) (hr : r ≠ .noMatch) :
    oneOf (p :: ps) c = r := by
  cases r with
  | success i s v => simp [oneOf, h]
  | error i e => simp [oneOf, h]
  | noMatch => exact absurd rfl hr

lemma oneOf_all_noMatch {T E : Type} {ps : List (Parser T E)} {c : ParseInput}
    (h : ∀ q ∈ ps, q c = .noMatch) : oneOf ps c = .noMatch := by
  have := oneOf_skip h ([] : List (Parser T E))
  simpa using this

lemma tupleAux_runsAll_append {T E : Type} {pre : List (Parser T E)}
    {next mid : ParseInput} {vs : List T} (h : RunsAll pre next mid vs)
    (rest : List (Parser T E)) (start : ParseInput) (items : List T) :
    tupleAux (pre ++ rest) start next items = tupleAux rest start mid (items ++ vs) := by
  induction h generalizing items with
  | nil c => simp
  | @cons p ps c i c2 s v vs hp htail ih =>
    rw [List.cons_append, tupleAux, hp]
    exact (ih (items ++ [v])).trans (by simp)

lemma tupleAux_success_iff {T E : Type} (ps : List (Parser T E)) (start : ParseInput)
    {next fin : ParseInput} {sp : ParseSource} {items out : List T} :
    tupleAux ps start next items = .success fin sp out ↔
      ∃ vs, RunsAll ps next fin vs ∧ out = items ++ vs ∧
        sp = ⟨start.code, start.index, fin.index⟩ := by
  induction ps generalizing next items with
  | nil =>
    constructor
    · intro h
      rw [tupleAux] at h
      cases h
      exact ⟨[], RunsAll.nil _, by simp⟩
    · rintro ⟨vs, hrun, hout, hsp⟩
      cases hrun
      simp only [List.append_nil] at hout
      rw [tupleAux, hout, hsp]
  | cons p rest ih =>
    constructor
    · intro h
      rw [tupleAux] at h
      cases hp : p next with
      | success i s v =>
        rw [hp] at h
        obtain ⟨vs, hrun, hout, hsp⟩ := ih.mp h
        exact ⟨v :: vs, RunsAll.cons hp hrun, by simp [hout], hsp⟩
      | error i e => rw [hp] at h; cases h
      | noMatch => rw [hp] at h; cases h
    · rintro ⟨vs, hrun, hout, hsp⟩
      cases hrun with
      | cons hp htail =>
        rw [tupleAux, hp]
        exact ih.mpr ⟨_, htail, by simp [hout], hsp⟩

lemma manySep0Go_item_error {T S E : Type} {item : Parser T E} {sep : Option (Parser S E)}
    {start next i : ParseInput} {items : List T} {fuel : Nat} {e : E}
    (hcase : items = [] ∨ sep = none) (hitem : item next = .error i e) :
    manySep0Go item sep start (fuel + 1) next items = some (.error i e) := by
  rcases hcase with rfl | rfl
  · cases sep <;> simp [manySep0Go, hitem]
  · cases items <;> simp [manySep0Go, hitem]

lemma manySep0Go_sep_error {T S E : Type} {item : Parser T E} {s : Parser S E}
    {start next i : ParseInput} {t : T} {ts : List T} {fuel : Nat} {e : E}
    (hs : s next = .error i e) :
    manySep0Go item (some s) start (fuel + 1) next (t :: ts) = some (.error i e) := by
  simp [manySep0Go, hs]

lemma manySep0Go_sep_item_error {T S E : Type} {item : Parser T E} {s : Parser S E}
    {start next i1 i : ParseInput} {t : T} {ts : List T} {fuel : Nat}
    {s1 : ParseSource} {v1 : S} {e : E}
    (hs : s next = .success i1 s1 v1) (hitem : item i1 = .error i e) :
    manySep0Go item (some s) start (fuel + 1) next (t :: ts) = some (.error i e) := by
  simp [manySep0Go, hs, hitem]

lemma manySep0_first_item_error {T S E : Type} {item : Parser T E} {sep : Option (Parser S E)}
    {c i : ParseInput} {e : E} (hitem : item c = .error i e) :
    manySep0 item sep c = .error i e := by
  rw [manySep0, manySep0Go_item_error (Or.inl rfl) hitem]
  rfl

lemma take0Go_char_error {E : Type} {charParser : Parser Char E}
    {start next i : ParseInput} {res : List Char} {fuel : Nat} {e : E}
    (hc : charParser next = .error i e) :
    take0Go charParser start (fuel + 1) next res = some (.error i e) := by
  simp [take0Go, hc]

lemma take0_first_char_error {E : Type} {charParser : Parser Char E}
    {c i : ParseInput} {e : E} (hc : charParser c = .error i e) :
    take0 charParser c = .error i e := by
  rw [take0, take0Go_char_error hc]
  rfl

lemma manySep0Go_ne_noMatch {T S E : Type} (item : Parser T E) (sep : Option (Parser S E))
    (start : ParseInput) :
    ∀ (fuel : Nat) (next : ParseInput) (items : List T) (r : ParseResult (List T) E),
      manySep0Go item sep start fuel next items = some r → r ≠ .noMatch := by
  intro fuel
  induction fuel with
  | zero =>
    intro next items r h
    simp [manySep0Go] at h
  | succ f ih =>
    intro next items r h
    rcases items with _ | ⟨t, ts⟩ <;> rcases sep with _ | s
    · cases hi : item next <;> simp only [manySep0Go, hi] at h <;>
        first | exact ih _ _ _ h | (intro hr; subst hr; simp at h)
    · cases hi : item next <;> simp only [manySep0Go, hi] at h <;>
        first | exact ih _ _ _ h | (intro hr; subst hr; simp at h)
    · cases hi : item next <;> simp only [manySep0Go, hi] at h <;>
        first | exact ih _ _ _ h | (intro hr; subst hr; simp at h)
    · cases hs : s next with
      | success i1 s1 v1 =>
        cases hi : item i1 <;> simp only [manySep0Go, hs, hi] at h <;>
          first | exact ih _ _ _ h | (intro hr; subst hr; simp at h)
      | error i e =>
        simp only [manySep0Go, hs] at h
        intro hr
        subst hr
        simp at h
      | noMatch =>
        simp only [manySep0Go, hs] at h
        intro hr
        subst hr
        simp at h

/-! Claim theorems. -/

/-- C1: Failed propagation: for every core combinator (`map`, `filter`,
`required`, `optional`, `oneOf`, `tuple`, the `manySep0` loop at every loop
state, `manySep1`, `many0`, `many1`, the `take0` loop at every loop state and
`take1`), a Failed returned by a sub-parser at the point it is invoked during
the run becomes the combinator's own result unchanged — same cursor and error
payload, no later alternative tried, no accumulated partial results kept. -/
theorem failed_propagation {T S E M : Type} (c : ParseInput) :
    (∀ (p : Parser T E) (fn : T → ParseSource → M) (i : ParseInput) (e : E),
      p c = .error i e → map p fn c = .error i e) ∧
    (∀ (p : Parser T E) (pred : T → Bool) (i : ParseInput) (e : E),
      p c = .error i e → filter p pred c = .error i e) ∧
    (∀ (p : Parser T E) (f : ParseInput → E) (i : ParseInput) (e : E),
      p c = .error i e → required p f c = .error i e) ∧
    (∀ (p : Parser T E) (i : ParseInput) (e : E),
      p c = .error i e → optional p c = .error i e) ∧
    (∀ (pre : List (Parser T E)) (p : Parser T E) (post : List (Parser T E))
      (i : ParseInput) (e : E),
      (∀ q ∈ pre, q c = .noMatch) → p c = .error i e →
      oneOf (pre ++ p :: post) c = .error i e) ∧
    (∀ (pre : List (Parser T E)) (p : Parser T E) (post : List (Parser T E))
      (mid i : ParseInput) (vs : List T) (e : E),
      RunsAll pre c mid vs → p mid = .error i e →
      tuple (pre ++ p :: post) c = .error i e) ∧
    (∀ (item : Parser T E) (sep : Option (Parser S E)) (start next i : ParseInput)
      (fuel : Nat) (items : List T) (e : E),
      (items = [] ∨ sep = none) → item next = .error i e →
      manySep0Go item sep start (fuel + 1) next items = some (.error i e)) ∧
    (∀ (item : Parser T E) (s : Parser S E) (start next i : ParseInput)
      (fuel : Nat) (t : T) (ts : List T) (e : E),
      s next = .error i e →
      manySep0Go item (some s) start (fuel + 1) next (t :: ts) = some (.error i e)) ∧
    (∀ (item : Parser T E) (s : Parser S E) (start next i1 i : ParseInput)
      (fuel : Nat) (t : T) (ts : List T) (s1 : ParseSource) (v1 : S) (e : E),
      s next = .success i1 s1 v1 → item i1 = .error i e →
      manySep0Go item (some s) start (fuel + 1) next (t :: ts) = some (.error i e)) ∧
    (∀ (item : Parser T E) (sep : Option (Parser S E)) (i : ParseInput) (e : E),
      item c = .error i e → manySep0 item sep c = .error i e) ∧
    (∀ (item : Parser T E) (sep : Option (Parser S E)) (i : ParseInput) (e : E),
      manySep0 item sep c = .error i e → manySep1 item sep c = .error i e) ∧
    (∀ (item : Parser T E) (i : ParseInput) (e : E),
      item c = .error i e → many0 item c = .error i e) ∧
    (∀ (item : Parser T E) (i : ParseInput) (e : E),
      manySep0 item (none : Option (Parser Unit E)) c = .error i e →
      many1 item c = .error i e) ∧
    (∀ (charParser : Parser Char E) (start next i : ParseInput) (fuel : Nat)
      (res : List Char) (e : E),
      charParser next = .error i e →
      take0Go charParser start (fuel + 1) next res = some (.error i e)) ∧
    (∀ (charParser : Parser Char E) (i : ParseInput) (e : E),
      charParser c = .error i e → take0 charParser c = .error i e) ∧
    (∀ (chP : Parser Char E) (i : ParseInput) (e : E),
      take0 chP c = .error i e → take1 chP c = .error i e) := by
  refine ⟨fun p fn i e h => by simp [map, h],
    fun p pred i e h => by simp [filter, h],
    fun p f i e h => by simp [required, h],
    fun p i e h => by simp [optional, h],
    fun pre p post i e hpre hp => ?_,
    fun pre p post mid i vs e hrun hp => ?_,
    fun item sep start next i fuel items e hcase hitem =>
      manySep0Go_item_error hcase hitem,
    fun item s start next i fuel t ts e hs => manySep0Go_sep_error hs,
    fun item s start next i1 i fuel t ts s1 v1 e hs hitem =>
      manySep0Go_sep_item_error hs hitem,
    fun item sep i e hitem => manySep0_first_item_error hitem,
    fun item sep i e h => by simp [manySep1, filter, h],
    fun item i e hitem => manySep0_first_item_error hitem,
    fun item i e h => by simp [many1, manySep1, filter, h],
    fun charParser start next i fuel res e hc => take0Go_char_error hc,
    fun charParser i e hc => take0_first_char_error hc,
    fun chP i e h => by simp [take1, filter, h]⟩
  · rw [oneOf_skip hpre]
    exact oneOf_cons_decisive post hp (by simp)
  · rw [tuple, tupleAux_runsAll_append hrun (p :: post) c [], tupleAux, hp]

/-- Witness for C1: a Failed produced by `required` inside `map` reaches the
caller unchanged. -/
theorem failed_propagation_witness :
    map (required (exact ['a'] : Parser (List Char) String) (fun _ => "boom"))
      (fun v _ => v) (input "b".data) = .error (input "b".data) "boom" :=
  (@failed_propagation (List Char) Unit String (List Char) (input "b".data)).1
    (required (exact ['a']) (fun _ => "boom")) (fun v _ => v) (input "b".data) "boom"
    (by decide)

/-- C7: when the first item attempt yields NoMatch, `manySep0` yields Matched
with the empty list, the original cursor and the zero-length span at the
original offset, while `manySep1` and `many1` yield NoMatch; and every exit of
the `manySep0` loop — from any loop state — is Matched or Failed, never
NoMatch. -/
theorem manySep0_zero_items {T S E : Type} (item : Parser T E) (sep : Option (Parser S E))
    (c : ParseInput) :
    (item c = .noMatch →
      manySep0 item sep c = .success c ⟨c.code, c.index, c.index⟩ [] ∧
      manySep1 item sep c = .noMatch ∧
      many1 item c = .noMatch) ∧
    (∀ (start : ParseInput) (fuel : Nat) (next : ParseInput) (items : List T)
      (r : ParseResult (List T) E),
      manySep0Go item sep start fuel next items = some r → r ≠ .noMatch) := by
  refine ⟨fun h => ?_, fun start fuel next items r hr =>
    manySep0Go_ne_noMatch item sep start fuel next items r hr⟩
  have h0 : manySep0 item sep c = .success c ⟨c.code, c.index, c.index⟩ [] := by
    cases sep <;> simp [manySep0, manySep0Go, h]
  have h1 : manySep0 item (none : Option (Parser Unit E)) c
      = .success c ⟨c.code, c.index, c.index⟩ [] := by
    simp [manySep0, manySep0Go, h]
  refine ⟨h0, ?_, ?_⟩
  · simp [manySep1, filter, h0]
  · simp [many1, manySep1, filter, h1]

/-- Witness for C7: zero items on input `"b"` for item `"a"`, separator `","`. -/
theorem manySep0_zero_items_witness :
    manySep0 (exact ['a'] : Parser (List Char) String)
        (some (exact [','] : Parser (List Char) String)) (input "b".data)
      = .success (input "b".data) ⟨"b".data, 0, 0⟩ [] ∧
    manySep1 (exact ['a'] : Parser (List Char) String)
        (some (exact [','] : Parser (List Char) String)) (input "b".data) = .noMatch ∧
    many1 (exact ['a'] : Parser (List Char) String) (input "b".data) = .noMatch :=
  (manySep0_zero_items (exact ['a']) (some (exact [','])) (input "b".data)).1 (by decide)

/-- C9: with at least one accumulated item, when the separator matches and the
following item attempt yields NoMatch, the `manySep0` loop exits with Matched,
keeping the accumulated items, the cursor positioned after the consumed
separator and a span extending through the trailing separator; concretely,
`manySep0 "a" sep "," ` on `"a,"` consumes the trailing comma. -/
theorem manySep0_trailing_sep :
    (∀ {T S E : Type} (item : Parser T E) (s : Parser S E)
      (start next i1 : ParseInput) (fuel : Nat) (t : T) (ts : List T)
      (s1 : ParseSource) (v1 : S),
      s next = .success i1 s1 v1 → item i1 = .noMatch →
      manySep0Go item (some s) start (fuel + 1) next (t :: ts) =
        some (.success i1 ⟨start.code, start.index, i1.index⟩ (t :: ts))) ∧
    manySep0 (exact ['a'] : Parser (List Char) String) (some (exact [',']))
        (input "a,".data)
      = .success ⟨"a,".data, 2⟩ ⟨"a,".data, 0, 2⟩ [['a']] := by
  refine ⟨fun item s start next i1 fuel t ts s1 v1 hs hi => ?_, by decide⟩
  simp [manySep0Go, hs, hi]

/-- Witness for C9: one loop step from the state with one accumulated item on
`"a,"`: the separator is consumed, the following item attempt fails softly, and
the loop exits at offset 2 with the span through the separator. -/
theorem manySep0_trailing_sep_witness :
    manySep0Go (exact ['a'] : Parser (List Char) String) (some (exact [',']))
        (input "a,".data) 2 ⟨"a,".data, 1⟩ [['a']]
      = some (.success ⟨"a,".data, 2⟩ ⟨"a,".data, 0, 2⟩ [['a']]) :=
  manySep0_trailing_sep.1 (exact ['a']) (exact [',']) (input "a,".data) ⟨"a,".data, 1⟩
    ⟨"a,".data, 2⟩ 1 ['a'] [] ⟨"a,".data, 1, 2⟩ [','] (by decide) (by decide)

lemma take0Go_exits {E : Type} {p : Parser Char E} (hp : AdvancesInBounds p)
    (start : ParseInput) :
    ∀ (fuel : Nat) (next : ParseInput) (res : List Char), next.code = start.code →
      start.code.length - next.index < fuel →
      ∃ r, take0Go p start fuel next res = some r := by
  intro fuel
  induction fuel with
  | zero => intro next res _ hlt; exact absurd hlt (Nat.not_lt_zero _)
  | succ f ih =>
    intro next res hcode hlt
    cases hc : p next with
    | success i s v =>
      obtain ⟨hic, hadv, hbound⟩ := hp next i s v hc
      obtain ⟨r, hr⟩ := ih i (res ++ [v]) (hic.trans hcode) (by
        have hlen : start.code.length = next.code.length := by rw [hcode]
        omega)
      exact ⟨r, by simp only [take0Go, hc]; exact hr⟩
    | error i e => exact ⟨.error i e, by simp [take0Go, hc]⟩
    | noMatch =>
      exact ⟨.success next ⟨start.code, start.index, next.index⟩ res,
        by simp [take0Go, hc]⟩

lemma manySep0Go_exits {T S E : Type} {item : Parser T E} {s : Parser S E}
    (hitem : AdvancesInBounds item) (hsep : AdvancesInBounds s) (start : ParseInput) :
    ∀ (fuel : Nat) (next : ParseInput) (items : List T), next.code = start.code →
      start.code.length - next.index < fuel →
      ∃ r, manySep0Go item (some s) start fuel next items = some r := by
  intro fuel
  induction fuel with
  | zero => intro next items _ hlt; exact absurd hlt (Nat.not_lt_zero _)
  | succ f ih =>
    intro next items hcode hlt
    rcases items with _ | ⟨t, ts⟩
    · cases hc : item next with
      | success i2 s2 v =>
        obtain ⟨hic, hadv, hbound⟩ := hitem next i2 s2 v hc
        obtain ⟨r, hr⟩ := ih i2 ([] ++ [v]) (hic.trans hcode) (by
          have hlen : start.code.length = next.code.length := by rw [hcode]
          omega)
        exact ⟨r, by simp only [manySep0Go, hc]; exact hr⟩
      | error i e => exact ⟨.error i e, by simp [manySep0Go, hc]⟩
      | noMatch =>
        exact ⟨.success next ⟨start.code, start.index, next.index⟩ [],
          by simp [manySep0Go, hc]⟩
    · cases hs : s next with
      | success i1 s1 v1 =>
        obtain ⟨h1c, h1adv, h1bound⟩ := hsep next i1 s1 v1 hs
        cases hc : item i1 with
        | success i2 s2 v =>
          obtain ⟨h2c, h2adv, h2bound⟩ := hitem i1 i2 s2 v hc
          obtain ⟨r, hr⟩ := ih i2 ((t :: ts) ++ [v]) (h2c.trans (h1c.trans hcode)) (by
            have e1 : start.code.length = next.code.length := by rw [hcode]
            have e2 : i1.code.length = next.code.length := by rw [h1c]
            omega)
          exact ⟨r, by simp only [manySep0Go, hs, hc]; exact hr⟩
        | error i e => exact ⟨.error i e, by simp [manySep0Go, hs, hc]⟩
        | noMatch =>
          exact ⟨.success i1 ⟨start.code, start.index, i1.index⟩ (t :: ts),
            by simp [manySep0Go, hs, hc]⟩
      | error i e => exact ⟨.error i e, by simp [manySep0Go, hs]⟩
      | noMatch =>
        exact ⟨.success next ⟨start.code, start.index, next.index⟩ (t :: ts),
          by simp [manySep0Go, hs]⟩

lemma manySep0Go_exact_nil_diverges {E : Type} (start : ParseInput) :
    ∀ (fuel : Nat) (next : ParseInput) (items : List (List Char)),
      manySep0Go (exact [] : Parser (List Char) E) (none : Option (Parser Unit E)) start
        fuel next items = none := by
  intro fuel
  induction fuel with
  | zero => intro next items; rfl
  | succ f ih =>
    intro next items
    rcases items with _ | ⟨t, ts⟩ <;> simp [manySep0Go, exact] <;> exact ih _ _

/-- C10 counterexample: `alwaysAdvance` satisfies the claim's strict-progress
hypothesis — every Matched result advances the offset — yet the `take0` loop on
the empty input never exits (the new cursor outruns the code length, so the
single-character parser keeps succeeding): strict progress alone does not make
`take0` terminate. -/
theorem take0_strict_progress_insufficient :
    StrictlyAdvances (alwaysAdvance : Parser Char String) ∧
    ¬ Take0Terminates (alwaysAdvance : Parser Char String) (input []) := by
  constructor
  · intro c i s v h
    simp only [alwaysAdvance] at h
    cases h
    simp
  · rintro ⟨fuel, r, h⟩
    have key : ∀ (fuel : Nat) (next : ParseInput) (res : List Char),
        take0Go (alwaysAdvance : Parser Char String) (input []) fuel next res = none := by
      intro fuel
      induction fuel with
      | zero => intro next res; rfl
      | succ f ih =>
        intro next res
        simp only [take0Go, alwaysAdvance]
        exact ih _ _
    rw [key] at h
    exact Option.noConfusion h

/-- C10 amended: `take0 c` terminates on every input when every Matched result
of `c` strictly advances the offset, preserves the code and stays within the
code length (`AdvancesInBounds` — the in-bounds part is needed on top of the
claim's strict progress, see the counterexample); likewise `manySep0` when
`item` and `sep` both advance in bounds; and without strict progress — item
`exact ""`, which always succeeds consuming nothing — the `manySep0` loop
never exits, from any loop state. -/
theorem repetition_termination {T S E : Type} :
    (∀ p : Parser Char E, AdvancesInBounds p → ∀ c : ParseInput, Take0Terminates p c) ∧
    (∀ (item : Parser T E) (s : Parser S E), AdvancesInBounds item → AdvancesInBounds s →
      ∀ c : ParseInput, ManySep0Terminates item (some s) c) ∧
    (∀ (start next : ParseInput) (fuel : Nat) (items : List (List Char)),
      manySep0Go (exact [] : Parser (List Char) E) (none : Option (Parser Unit E)) start
        fuel next items = none) := by
  refine ⟨fun p hp c => ?_, fun item s hi hs c => ?_,
    fun start next fuel items => manySep0Go_exact_nil_diverges start fuel next items⟩
  · obtain ⟨r, hr⟩ := take0Go_exits hp c (c.code.length - c.index + 1) c [] rfl (by omega)
    exact ⟨_, r, hr⟩
  · obtain ⟨r, hr⟩ := manySep0Go_exits hi hs c (c.code.length - c.index + 1) c [] rfl (by omega)
    exact ⟨_, r, hr⟩

/-- Witness for the amended C10: `char` advances in bounds, so the `take0 char`
loop terminates on `"ab"`. -/
theorem repetition_termination_witness :
    Take0Terminates (char : Parser Char String) (input "ab".data) :=
  (@repetition_termination Unit Unit String).1 char
    (by
      intro c i s v h
      rw [char] at h
      split at h
      · rename_i hlt
        cases h
        exact ⟨rfl, Nat.lt_succ_self _, hlt⟩
      · exact ParseResult.noConfusion h)
    (input "ab".data)

/-- C8: parsing `{ "foo": 12` with the JSON grammar yields Failed at cursor
offset 11 (the end of the input) with the missing-closing-brace error. -/
theorem json_missing_brace :
    jsonDocument 10 (input "\x7b \x22foo\x22: 12".data)
      = .error ⟨"\x7b \x22foo\x22: 12".data, 11⟩
          "Expected closing curly brace \x27\x7d\x27" := by
  rfl

/-- C3: `oneOf` tries the alternatives in order against the same starting cursor
and returns the result of the first alternative whose outcome is Matched or
Failed; the outcome is independent of everything after the first decisive
alternative, and if every alternative yields NoMatch (including the
zero-alternative case) the combinator yields NoMatch. -/
theorem oneOf_contract {T E : Type} (c : ParseInput) :
    oneOf ([] : List (Parser T E)) c = .noMatch ∧
    (∀ (pre : List (Parser T E)) (p : Parser T E) (post : List (Parser T E))
      (r : ParseResult T E),
      (∀ q ∈ pre, q c = .noMatch) → p c = r → r ≠ .noMatch →
      oneOf (pre ++ p :: post) c = r) ∧
    (∀ ps : List (Parser T E), (∀ q ∈ ps, q c = .noMatch) → oneOf ps c = .noMatch) := by
  refine ⟨rfl, fun pre p post r hpre hp hr => ?_, fun ps h => oneOf_all_noMatch h⟩
  rw [oneOf_skip hpre, oneOf_cons_decisive post hp hr]

/-- Witness for C3: `oneOf` returns the first alternative's match on `"ab"` even
though the second alternative would also match. -/
theorem oneOf_contract_witness :
    oneOf [(exact ['a'] : Parser (List Char) String), exact ['a', 'b']] (input "ab".data)
      = .success ⟨"ab".data, 1⟩ ⟨"ab".data, 0, 1⟩ ['a'] :=
  (oneOf_contract (input "ab".data)).2.1 [] (exact ['a']) [exact ['a', 'b']]
    (.success ⟨"ab".data, 1⟩ ⟨"ab".data, 0, 1⟩ ['a'])
    (by simp) (by decide) (by decide)

/-- C4: `required p f` turns a NoMatch from `p` into a Failed at the exact
original cursor with payload `f c`; Matched and Failed pass through unchanged. -/
theorem required_contract {T E : Type} (p : Parser T E) (f : ParseInput → E) (c : ParseInput) :
    (p c = .noMatch → required p f c = .error c (f c)) ∧
    (∀ i s v, p c = .success i s v → required p f c = .success i s v) ∧
    (∀ i e, p c = .error i e → required p f c = .error i e) := by
  refine ⟨fun h => ?_, fun i s v h => ?_, fun i e h => ?_⟩ <;> simp [required, h]

/-- Witness for C4 at `required (exact "a")` on input `"b"`. -/
theorem required_contract_witness :
    required (exact ['a'] : Parser (List Char) String) (fun _ => "missing a") (input "b".data)
      = .error (input "b".data) "missing a" :=
  (required_contract (exact ['a']) (fun _ => "missing a") (input "b".data)).1 (by decide)

/-- C5: `optional p` turns a NoMatch from `p` into a zero-length Matched at the
unchanged input cursor carrying the absence marker; Matched and Failed pass
through (a matched value wrapped in `some`), and `optional` never itself
constructs a Failed result. -/
theorem optional_contract {T E : Type} (p : Parser T E) (c : ParseInput) :
    (p c = .noMatch → optional p c = .success c ⟨c.code, c.index, c.index⟩ none) ∧
    (∀ i s v, p c = .success i s v → optional p c = .success i s (some v)) ∧
    (∀ i e, p c = .error i e → optional p c = .error i e) ∧
    (∀ i e, optional p c = .error i e → p c = .error i e) := by
  refine ⟨fun h => ?_, fun i s v h => ?_, fun i e h => ?_, fun i e h => ?_⟩
  · simp [optional, h, nothing]
  · simp [optional, h]
  · simp [optional, h]
  · revert h
    cases hp : p c <;> simp [optional, nothing, hp]

/-- Witness for C5 at `optional (exact "a")` on input `"b"`. -/
theorem optional_contract_witness :
    optional (exact ['a'] : Parser (List Char) String) (input "b".data)
      = .success (input "b".data) ⟨"b".data, 0, 0⟩ none :=
  (optional_contract (exact ['a']) (input "b".data)).1 (by decide)

/-- C6: `filter p pred` yields NoMatch (discarding any cursor advance) when `p`
matches a value rejected by `pred`, and otherwise returns `p`'s result
unchanged. -/
theorem filter_contract {T E : Type} (p : Parser T E) (pred : T → Bool) (c : ParseInput) :
    (∀ i s v, p c = .success i s v → pred v = false → filter p pred c = .noMatch) ∧
    (∀ i s v, p c = .success i s v → pred v = true → filter p pred c = .success i s v) ∧
    (p c = .noMatch → filter p pred c = .noMatch) ∧
    (∀ i e, p c = .error i e → filter p pred c = .error i e) := by
  refine ⟨fun i s v h hv => ?_, fun i s v h hv => ?_, fun h => ?_, fun i e h => ?_⟩ <;>
    simp [filter, h] <;> simp [hv]

/-- Witness for C6: `char` matches `'a'` (advancing the cursor) but the
predicate rejects it, so the filtered parser yields NoMatch. -/
theorem filter_contract_witness :
    filter (char : Parser Char String) (fun ch => ch == 'z') (input "a".data) = .noMatch :=
  (filter_contract char (fun ch => ch == 'z') (input "a".data)).1
    ⟨"a".data, 1⟩ ⟨"a".data, 0, 1⟩ 'a' (by decide) (by decide)

/-- C2: the list `tuple` yields Matched exactly when every parser matches in
order, each from the cursor left by its predecessor (relation `RunsAll`), with
the ordered per-slot values and a span from the initial cursor offset to the
final cursor offset; on the first NoMatch or Failed from a slot it returns that
exact result. -/
theorem tuple_contract {T E : Type} :
    (∀ (ps : List (Parser T E)) (c fin : ParseInput) (vs : List T),
      tuple ps c = .success fin ⟨c.code, c.index, fin.index⟩ vs ↔ RunsAll ps c fin vs) ∧
    (∀ (ps : List (Parser T E)) (c fin : ParseInput) (sp : ParseSource) (vs : List T),
      tuple ps c = .success fin sp vs → sp = ⟨c.code, c.index, fin.index⟩) ∧
    (∀ (pre : List (Parser T E)) (p : Parser T E) (post : List (Parser T E))
      (c mid : ParseInput) (vs : List T), RunsAll pre c mid vs →
      (p mid = .noMatch → tuple (pre ++ p :: post) c = .noMatch) ∧
      (∀ i e, p mid = .error i e → tuple (pre ++ p :: post) c = .error i e)) := by
  refine ⟨fun ps c fin vs => ?_, fun ps c fin sp vs h => ?_,
    fun pre p post c mid vs hrun => ?_⟩
  · rw [tuple, tupleAux_success_iff]
    constructor
    · rintro ⟨ws, hrun, hout, _⟩
      simp only [List.nil_append] at hout
      rwa [hout]
    · intro hrun
      exact ⟨vs, hrun, by simp, rfl⟩
  · rw [tuple, tupleAux_success_iff] at h
    obtain ⟨ws, _, _, hsp⟩ := h
    exact hsp
  · have hskip := tupleAux_runsAll_append hrun (p :: post) c []
    refine ⟨fun hp => ?_, fun i e hp => ?_⟩
    · rw [tuple, hskip, tupleAux, hp]
    · rw [tuple, hskip, tupleAux, hp]

/-- Witness for C2: a two-slot tuple on `"ab"` matches with both values and the
span `[0, 2)`. -/
theorem tuple_contract_witness :
    tuple [(exact ['a'] : Parser (List Char) String), exact ['b']] (input "ab".data)
      = .success ⟨"ab".data, 2⟩ ⟨"ab".data, 0, 2⟩ [['a'], ['b']] :=
  (tuple_contract.1 [exact ['a'], exact ['b']] (input "ab".data) ⟨"ab".data, 2⟩
      [['a'], ['b']]).mpr
    (RunsAll.cons
      (show (exact ['a'] : Parser (List Char) String) (input "ab".data)
          = .success ⟨"ab".data, 1⟩ ⟨"ab".data, 0, 1⟩ ['a'] by decide)
      (RunsAll.cons
        (show (exact ['b'] : Parser (List Char) String) ⟨"ab".data, 1⟩
            = .success ⟨"ab".data, 2⟩ ⟨"ab".data, 1, 2⟩ ['b'] by decide)
        (RunsAll.nil _)))

end Monch
